import Mathlib

/-!
A shallow embedding of parts of the `mocc` neutron-transport code, and
theorems checking the natural-language specification against it.

Conventions used throughout:
* C++ `real_t` (double) is embedded as `ℚ`; the claims checked here are
  structural (control flow, branch selection, zero-preservation), not about
  floating-point rounding, so exact rationals are the faithful choice.
* Stateful C++ code becomes explicit state passing: member variables become
  fields of a state structure, loops become folds or structural recursion.
* Components of the repository whose sources are not available (the Sn
  `CellWorker`, `SnBoundary`, `CoarseData` internals, the `Source`) appear as
  function parameters, or as definitions whose doc comment starts with
  `Modelled from the spec:`.
-/

namespace Mocc

/-! ## Angle and its upwind surface (src/core/angle.hpp) -/

/-- The `Normal` enumeration from `core/constants.hpp` (X_NORM, Y_NORM,
Z_NORM). -/
inductive Normal
  | xNorm
  | yNorm
  | zNorm
deriving DecidableEq, Repr

/-- The `Surface` enumeration members used by `Angle::upwind_surface`. -/
inductive Surface
  | east
  | west
  | north
  | south
  | top
  | bottom
deriving DecidableEq, Repr

/-- The `Angle` struct from `core/angle.hpp`: direction cosines plus
azimuthal angle, polar cosine, weight and reciprocal sine. -/
structure Angle where
  ox : ℚ
  oy : ℚ
  oz : ℚ
  alpha : ℚ
  theta : ℚ
  weight : ℚ
  rsintheta : ℚ
deriving DecidableEq, Repr

/-- `Angle::upwind_surface` from `core/angle.hpp` lines 94-106:
`X_NORM ↦ (ox > 0) ? WEST : EAST`, `Y_NORM ↦ (oy > 0) ? SOUTH : NORTH`,
`Z_NORM ↦ (oz > 0) ? BOTTOM : TOP`.  The C++ `default:` branch returning
`INVALID` is unreachable here because `Normal` has exactly the three
members matched above. -/
def Angle.upwind_surface (a : Angle) (n : Normal) : Surface :=
  match n with
  | Normal.xNorm => if a.ox > 0 then Surface.west else Surface.east
  | Normal.yNorm => if a.oy > 0 then Surface.south else Surface.north
  | Normal.zNorm => if a.oz > 0 then Surface.bottom else Surface.top

/-! ## Transport sweeper factory (src/mocc-core/transport_sweeper_factory.cpp) -/

/-- The kind of sweeper object produced by `TransportSweeperFactory`. -/
inductive SweeperKind
  | mocSweeper
  | snSweeper
deriving DecidableEq, Repr

/-- `TransportSweeperFactory` from `mocc-core/transport_sweeper_factory.cpp`
lines 11-28: reads the `type` attribute of the `sweeper` node; `"moc"`
produces a `MoCSweeper`, `"sn"` produces an `SnSweeper`, and anything else
throws `"Failed to detect a valid sweeper type."`. -/
def TransportSweeperFactory (type : String) : Except String SweeperKind :=
  if type = "moc" then
    Except.ok SweeperKind.mocSweeper
  else if type = "sn" then
    Except.ok SweeperKind.snSweeper
  else
    Except.error "Failed to detect a valid sweeper type."

/-! ## Core constructor: assembly arrangement and compatibility checks
(src/core.cpp) -/

/-- The part of `Assembly` that the `Core` constructor inspects
(src/mocc-core/assembly.hpp): the number of planes `nz` and the per-plane
heights `hz` (with `hz i = hz_[i]`). -/
structure AssemblyQ where
  nz : Nat
  hz : List ℚ
deriving DecidableEq, Repr

/-- The assembly-arrangement double loop of the `Core` constructor
(src/core.cpp lines 39-48):

    assemblies_.resize(nx*ny);
    for iy in [0, ny):
      row = ny - iy - 1
      for ix in [0, nx):
        col = ix
        assemblies_[row*nx + col] = assemblies.at(asy_vec[(ny-iy-1)*nx + ix])

`asy_vec` is the flat list of assembly IDs in input order (first input row
first); the result is the flat `assemblies_` array, index `row*nx + col`. -/
def coreFillAssemblies (nx ny : Nat) (asy_vec : Nat → Int) : Array Int :=
  (List.range ny).foldl
    (fun arr iy =>
      let row := ny - iy - 1
      (List.range nx).foldl
        (fun arr ix =>
          let col := ix
          arr.setD (row * nx + col) (asy_vec ((ny - iy - 1) * nx + ix)))
        arr)
    (Array.mkArray (nx * ny) 0)

/-- The compatibility checks of the `Core` constructor (src/core.cpp lines
50-68), applied to the stored assemblies: all assemblies must share the
`nz` of the first one, and for every plane `i < nz` all assemblies must
share the `hz(i)` of the first one.  The C++ loops call `Error(...)` at the
first violation; `Error` aborts the program, which we embed as
`Except.error` carrying the diagnostic message, so that no `Core` value is
produced on the error path. -/
def coreCheckCompatible (asys : List AssemblyQ) : Except String Unit :=
  let first := asys.headD ⟨0, []⟩
  let nz := first.nz
  if asys.all (fun a => a.nz = nz) then
    if (List.range nz).all
        (fun i => asys.all (fun a => a.hz.getD i 0 = first.hz.getD i 0)) then
      Except.ok ()
    else
      Except.error "Assemblies have incompatible plane heights in core."
  else
    Except.error "Assemblies in the core have incompatible numbers of planes."

/-- The `Core` constructor after ID parsing: arrange the assemblies
(`coreFillAssemblies`) and run the compatibility checks; only when the
checks pass is a `Core` (here: the list of stored assemblies) produced. -/
def coreConstruct (asys : List AssemblyQ) : Except String (List AssemblyQ) :=
  match coreCheckCompatible asys with
  | Except.ok _ => Except.ok asys
  | Except.error e => Except.error e

/-! ## Sn sweeper construction (src/sn/sn_sweeper_variant.hpp lines 63-77) -/

/-- The slice of the XML input node that the `SnSweeperVariant` constructor
inspects: whether the node is empty, and the `n_inner` attribute.
`nInnerAttr = none` models a missing (or unparsable) attribute, for which
pugixml's `as_int(-1)` returns the default `-1`. -/
structure SnInputNode where
  isEmpty : Bool
  nInnerAttr : Option Int
deriving DecidableEq, Repr

/-- The input-validation part of the `SnSweeperVariant` constructor
(src/sn/sn_sweeper_variant.hpp lines 63-74): an empty node throws; then
`n_inner` is read with default `-1` and a negative value throws; otherwise
the value is stored as `n_inner_`. -/
def parseNInner (input : SnInputNode) : Except String Nat :=
  if input.isEmpty = true then
    Except.error "No input specified to initialize Sn sweeper."
  else
    let int_in : Int := input.nInnerAttr.getD (-1)
    if int_in < 0 then
      Except.error "Invalid number of inner iterations specified (n_inner)."
    else
      Except.ok int_in.toNat

/-! ## Sn sweeper `sweep(group)`: event trace
(src/sn/sn_sweeper_variant.hpp lines 93-124) -/

/-- Observable operations performed by `SnSweeperVariant::sweep` during its
inner-iteration loop. -/
inductive SnEvent
  | selfScatter (group : Nat)
  | zeroData (group : Nat)
  | sweepCurrent (group : Nat)
  | sweepNoCurrent (group : Nat)
  | setHasAxialData
  | setHasRadialData
deriving DecidableEq, Repr

/-- The operations of one inner iteration of `SnSweeperVariant::sweep`
(src/sn/sn_sweeper_variant.hpp lines 108-120): recompute the self-scatter
source, then either (last inner with coarse data attached) zero the coarse
data and sweep with the `Current` worker and set the has-data flags, or
sweep with the `NoCurrent` worker. -/
def innerTrace (g n_inner : Nat) (coarseAttached : Bool) (inner : Nat) :
    List SnEvent :=
  SnEvent.selfScatter g ::
    (if inner = n_inner - 1 ∧ coarseAttached = true then
      [SnEvent.zeroData g, SnEvent.sweepCurrent g,
       SnEvent.setHasAxialData, SnEvent.setHasRadialData]
    else
      [SnEvent.sweepNoCurrent g])

/-- The full event trace of `SnSweeperVariant::sweep(group)`: the inner loop
`for (inner = 0; inner < n_inner_; inner++)`. -/
def sweepTrace (g : Nat) (coarseAttached : Bool) (n_inner : Nat) :
    List SnEvent :=
  (List.range n_inner).flatMap (innerTrace g n_inner coarseAttached)

/-! ## Sn sweeper `sweep(group)`: state embedding
(src/sn/sn_sweeper_variant.hpp lines 93-124) -/

/-- The `CoarseData` bus as seen by the Sn sweeper.  Modelled from the spec:
the class itself is not among the provided sources; per the spec it holds
per-group surface currents (here the abstract payload `data`) plus the two
flags `has_radial_data` and `has_axial_data`. -/
structure CoarseData (D : Type) where
  data : D
  hasRadial : Bool
  hasAxial : Bool
deriving DecidableEq, Repr

/-- The sweeper state touched by `SnSweeperVariant::sweep`: the multigroup
flux `flux_(region, group)`, the one-group working flux `flux_1g_`, the
source `q_`, the stashed transport cross sections `xstr_`, the boundary
conditions `bc_in_`/`bc_out_` (abstract type `BC`), and the optionally
attached coarse-data bus. -/
structure SnState (BC D : Type) where
  flux : Nat → Nat → ℚ
  flux1g : Nat → ℚ
  q : Nat → ℚ
  xstr : Nat → ℚ
  bcIn : BC
  bcOut : BC
  coarse : Option (CoarseData D)

/-- The collaborators of `SnSweeperVariant::sweep` whose sources are not
provided, as abstract operations.  Modelled from the spec:
* `xstrOf g r` — the transport cross section stashed into `xstr_[r]` for
  group `g` (lines 98-103, reading the XS mesh);
* `selfScatter g flux1g` — `source_->self_scatter(group, flux_1g_, q_)`,
  which recomputes `q_` from the current one-group flux;
* `zeroData g d` — `coarse_data_->zero_data(group)` acting on the currents;
* `sweep1gC`/`sweep1gN` — `sweep_1g<Current>` / `sweep_1g<NoCurrent>`:
  given group, `q_`, `xstr_`, `flux_1g_`, `bc_in_`, `bc_out_` (and for the
  `Current` variant the coarse currents) they produce the new `flux_1g_`,
  `bc_in_`, `bc_out_` (and new currents).  Per the spec the `NoCurrent`
  worker is a no-op on coarse data, and neither variant touches the
  has-data flags (only `set_has_*` does, in `sweep` itself). -/
structure SnOps (BC D : Type) where
  xstrOf : Nat → Nat → ℚ
  selfScatter : Nat → (Nat → ℚ) → Nat → ℚ
  zeroData : Nat → D → D
  sweep1gC : Nat → (Nat → ℚ) → (Nat → ℚ) → (Nat → ℚ) → BC → BC → D →
    ((Nat → ℚ) × BC × BC × D)
  sweep1gN : Nat → (Nat → ℚ) → (Nat → ℚ) → (Nat → ℚ) → BC → BC →
    ((Nat → ℚ) × BC × BC)

/-- One inner iteration of `SnSweeperVariant::sweep`
(src/sn/sn_sweeper_variant.hpp lines 108-120): recompute `q_` by
`self_scatter` from the current `flux_1g_`; then
`if (inner == n_inner_-1 && coarse_data_)` zero the coarse data for the
group, sweep with the `Current` worker, and set `has_axial_data` and
`has_radial_data` to true; otherwise sweep with the `NoCurrent` worker. -/
def sweepInnerStep {BC D : Type} (ops : SnOps BC D) (g n_inner inner : Nat)
    (s : SnState BC D) : SnState BC D :=
  let s1 : SnState BC D := { s with q := ops.selfScatter g s.flux1g }
  if inner = n_inner - 1 then
    match s1.coarse with
    | some cd =>
      let d0 := ops.zeroData g cd.data
      let r := ops.sweep1gC g s1.q s1.xstr s1.flux1g s1.bcIn s1.bcOut d0
      { s1 with flux1g := r.1, bcIn := r.2.1, bcOut := r.2.2.1,
                coarse := some { data := r.2.2.2, hasRadial := true,
                                 hasAxial := true } }
    | none =>
      let r := ops.sweep1gN g s1.q s1.xstr s1.flux1g s1.bcIn s1.bcOut
      { s1 with flux1g := r.1, bcIn := r.2.1, bcOut := r.2.2 }
  else
    let r := ops.sweep1gN g s1.q s1.xstr s1.flux1g s1.bcIn s1.bcOut
    { s1 with flux1g := r.1, bcIn := r.2.1, bcOut := r.2.2 }

/-- `SnSweeperVariant::sweep(group)` (src/sn/sn_sweeper_variant.hpp lines
93-124): stash the group's transport cross sections into `xstr_`; load
`flux_1g_ = flux_(:, group)`; run the inner-iteration loop; store
`flux_(:, group) = flux_1g_`. -/
def snSweep {BC D : Type} (ops : SnOps BC D) (g n_inner : Nat)
    (s : SnState BC D) : SnState BC D :=
  let s1 : SnState BC D := { s with xstr := ops.xstrOf g }
  let s2 : SnState BC D := { s1 with flux1g := fun r => s1.flux r g }
  let s3 := (List.range n_inner).foldl
    (fun st inner => sweepInnerStep ops g n_inner inner st) s2
  { s3 with flux := fun r gg => if gg = g then s3.flux1g r else s3.flux r gg }

/-! ## Sn one-group sweep: per-axis loop direction
(src/sn/sn_sweeper_variant.hpp lines 158-234) -/

/-- The per-axis loop configuration computed in `sweep_1g` (lines 165-193):
start index, stop sentinel, step, and the (possibly sign-flipped) direction
cosine left in the local `ox`/`oy`/`oz` after the block. -/
structure AxisCfg where
  stt : Int
  stp : Int
  dir : Int
  oabs : ℚ
deriving DecidableEq, Repr

/-- The direction-configuration block of `sweep_1g` for one axis
(e.g. lines 165-173 for x): `stt = 0; stp = n; dir = 1;` and when the
cosine is negative `o = -o; stt = n-1; stp = -1; dir = -1;`. -/
def axisConfig (n : Nat) (o : ℚ) : AxisCfg :=
  if o < 0 then
    { stt := (n : Int) - 1, stp := -1, dir := -1, oabs := -o }
  else
    { stt := 0, stp := (n : Int), dir := 1, oabs := o }

/-- The index sequence visited by the C-style loop
`for (i = stt; i != stp; i += dir)`, given the number of iterations as
fuel.  For the two configurations produced by `axisConfig` the loop
performs exactly `((stp - stt) * dir)` iterations, which is the fuel used
in `axisIndices`. -/
def forIdx : Nat → Int → Int → List Int
  | 0, _, _ => []
  | fuel + 1, i, d => i :: forIdx fuel (i + d) d

/-- The cell indices visited along one axis by `sweep_1g`'s loop for the
given extent `n` and direction cosine `o`. -/
def axisIndices (n : Nat) (o : ℚ) : List Int :=
  let c := axisConfig n o
  forIdx (((c.stp - c.stt) * c.dir).toNat) c.stt c.dir

/-- The full cell visitation order of one angle's pass in `sweep_1g`
(lines 202-206): `iz` outermost, then `iy`, then `ix` innermost. -/
def cellOrder (nx ny nz : Nat) (ox oy oz : ℚ) : List (Int × Int × Int) :=
  (axisIndices nz oz).flatMap fun iz =>
    (axisIndices ny oy).flatMap fun iy =>
      (axisIndices nx ox).map fun ix => (ix, iy, iz)

/-! ## Sn one-group sweep: boundary-condition update modes
(src/sn/sn_sweeper_variant.hpp lines 150-248) -/

/-- The abstract `SnBoundary` operations used by `sweep_1g`.  Modelled from
the spec: `sn_boundary.hpp` is not among the provided sources; the spec
describes per-group, per-angle, per-normal faces of incoming angular flux.
* `getFace b g a n` — `b.get_face(g, a, n)`;
* `setFace b g a n f` — `b.set_face(g, a, n, f)`;
* `updateAng bin g a bout` — `bc_in_.update(group, iang, bc_out_)`
  (propagate angle `a`'s outgoing faces of `bout` into `bin`);
* `updateAll bin g bout` — `bc_in_.update(group, bc_out_)` (propagate all
  angles' outgoing faces). -/
structure BCOps (BC Face : Type) where
  getFace : BC → Nat → Nat → Normal → Face
  setFace : BC → Nat → Nat → Normal → Face → BC
  updateAng : BC → Nat → Nat → BC → BC
  updateAll : BC → Nat → BC → BC

/-- The pair of boundary-condition objects `bc_in_`, `bc_out_`. -/
structure BCPair (BC : Type) where
  bcIn : BC
  bcOut : BC
deriving DecidableEq, Repr

/-- One angle's pass of `sweep_1g` restricted to its effect on the boundary
conditions (src/sn/sn_sweeper_variant.hpp lines 195-243):
load the three incoming face buffers from `bc_in_` (lines 196-198), run
the upwind work and the cell loop — abstracted as `angleComp`, which maps
the incoming face buffers to the outgoing ones — then store the outgoing
buffers into `bc_out_` at group index 0 (lines 237-239), and, when
`gs_boundary_` is set, immediately propagate them into `bc_in_`
(lines 240-242). -/
def angleStep {BC Face : Type} (ops : BCOps BC Face)
    (angleComp : Nat → Face × Face × Face → Face × Face × Face)
    (gs : Bool) (g iang : Nat) (st : BCPair BC) : BCPair BC :=
  let xf := ops.getFace st.bcIn g iang Normal.xNorm
  let yf := ops.getFace st.bcIn g iang Normal.yNorm
  let zf := ops.getFace st.bcIn g iang Normal.zNorm
  let out := angleComp iang (xf, yf, zf)
  let bout := ops.setFace
    (ops.setFace (ops.setFace st.bcOut 0 iang Normal.xNorm out.1)
      0 iang Normal.yNorm out.2.1)
    0 iang Normal.zNorm out.2.2
  if gs = true then
    { bcIn := ops.updateAng st.bcIn g iang bout, bcOut := bout }
  else
    { bcIn := st.bcIn, bcOut := bout }

/-- The boundary-condition effect of the whole `sweep_1g` angle loop
(lines 150-248): fold `angleStep` over the angle indices, then, when
`gs_boundary_` is false, update `bc_in_` from `bc_out_` once at the end
(lines 246-248). -/
def sweep1gBoundary {BC Face : Type} (ops : BCOps BC Face)
    (angleComp : Nat → Face × Face × Face → Face × Face × Face)
    (gs : Bool) (g : Nat) (angles : List Nat) (st : BCPair BC) : BCPair BC :=
  let fin := angles.foldl (fun s a => angleStep ops angleComp gs g a s) st
  if gs = true then fin
  else { bcIn := ops.updateAll fin.bcIn g fin.bcOut, bcOut := fin.bcOut }

/-- The successive boundary states of the angle loop: `bcStates ... angles st`
lists the state seen at the start of each angle's pass (so its `k`-th
element is the `bc_in_`/`bc_out_` pair that angle `angles[k]` reads), with
the state after the final angle appended. -/
def bcStates {BC Face : Type} (ops : BCOps BC Face)
    (angleComp : Nat → Face × Face × Face → Face × Face × Face)
    (gs : Bool) (g : Nat) : List Nat → BCPair BC → List (BCPair BC)
  | [], st => [st]
  | a :: rest, st =>
    st :: bcStates ops angleComp gs g rest (angleStep ops angleComp gs g a st)

/-! ## Flux-weighted XS homogenization
(src/mocc-core/xs_mesh_homogenized.cpp lines 116-212) -/

/-- A compact scattering row (`ScatteringRow` in the material library):
destination-group row with bounds `min_g`, `max_g` and coefficients `row`
(called `from` in the C++, indexed `from[igg - min_g]`). -/
structure ScatteringRow where
  min_g : Nat
  max_g : Nat
  row : List ℚ
deriving DecidableEq, Repr

/-- The per-group material data consumed by `homogenize_region_flux`:
macroscopic transport, nu-fission, kappa-fission and chi cross sections,
and the scattering rows `xssc().to(ig)`. -/
structure Material where
  xstr : List ℚ
  xsnf : List ℚ
  xskf : List ℚ
  xsch : List ℚ
  xssc_to : Nat → ScatteringRow

/-- The pin data consumed by `homogenize_region_flux`: the per-XS-region
material IDs `pin.mat_ids()`, the per-XS-region fine-region counts
`pin_mesh.n_fsrs(ixsreg)`, the fine-region volumes `pin_mesh.vols()`, and
the pin-local region count `pin_mesh.n_reg()`. -/
structure PinModel where
  mat_ids : List Nat
  n_fsrs : Nat → Nat
  vols : List ℚ
  n_reg_pin : Nat

/-- The fission-source precompute block of `homogenize_region_flux`
(src/mocc-core/xs_mesh_homogenized.cpp lines 137-154): `fs` starts at
zero; for each material (with XS-region index `ixsreg`), for each group
`ig`, the indices `ireg = first_reg` and `ireg_local = 0` are reset, and
over the material's `n_fsrs(ixsreg)` fine regions the code accumulates
`fs[ireg_local] += xsnf[ig] * flux[ireg + ig*n_reg] * vols[ireg_local]`.
(`ireg`/`ireg_local` are declared inside the per-material, per-group
loops, so they restart for every material — translated exactly as
written.)  `fs` is embedded as a total function `Nat → ℚ`. -/
def fsLoop (mat_lib : Nat → Material) (pin : PinModel) (flux : Nat → ℚ)
    (n_reg first_reg ng : Nat) : Nat → ℚ :=
  (pin.mat_ids.enum).foldl
    (fun fs p =>
      let mat := mat_lib p.2
      (List.range ng).foldl
        (fun fs ig =>
          (List.range (pin.n_fsrs p.1)).foldl
            (fun fs i =>
              let ireg := first_reg + i
              let ireg_local := i
              fun j =>
                if j = ireg_local then
                  fs j + mat.xsnf.getD ig 0 * flux (ireg + ig * n_reg) *
                    pin.vols.getD ireg_local 0
                else fs j)
            fs)
        fs)
    (fun _ => 0)

/-- `fs_sum` (src/mocc-core/xs_mesh_homogenized.cpp lines 156-159): the sum
of the `pin_mesh.n_reg()` entries of the `fs` vector. -/
def fsSum (fs : Nat → ℚ) (n_reg_pin : Nat) : ℚ :=
  ((List.range n_reg_pin).map fs).sum

/-- The accumulator state of the per-group loop of
`homogenize_region_flux` (src/mocc-core/xs_mesh_homogenized.cpp lines
161-193): running sums `fluxvolsum`, `xstr[ig]`, `xsnf[ig]`, `xskf[ig]`,
`xsch[ig]`, `scat[ig][:]` and `scatsum[:]`, plus the region counters
`ireg` (global, starting at `first_reg`) and `ireg_local` (pin-local,
starting at 0), which here persist across the materials of the pin. -/
structure GAccum where
  fluxvolsum : ℚ
  xstrA : ℚ
  xsnfA : ℚ
  xskfA : ℚ
  xschA : ℚ
  scatA : Nat → ℚ
  scatsum : Nat → ℚ
  ireg : Nat
  iregLocal : Nat

/-- The body of the per-group loop of `homogenize_region_flux`
(src/mocc-core/xs_mesh_homogenized.cpp lines 161-193) for destination
group `ig`: iterate the pin's materials (XS-region index from `enum`) and
each material's fine regions, accumulating the flux-volume-weighted cross
sections; `xsch` is weighted by the precomputed fission source
`fs[ireg_local]`.  The inner `igg` loop over source groups (lines
181-188) becomes a pointwise function update guarded by `igg < ng`. -/
def gLoop (mat_lib : Nat → Material) (pin : PinModel) (flux : Nat → ℚ)
    (n_reg first_reg ng : Nat) (fs : Nat → ℚ) (ig : Nat) : GAccum :=
  (pin.mat_ids.enum).foldl
    (fun acc p =>
      let mat := mat_lib p.2
      let srow := mat.xssc_to ig
      (List.range (pin.n_fsrs p.1)).foldl
        (fun acc _i =>
          let v := pin.vols.getD acc.iregLocal 0
          let flux_i := flux (acc.ireg + ig * n_reg)
          { fluxvolsum := acc.fluxvolsum + v * flux_i
            xstrA := acc.xstrA + v * flux_i * mat.xstr.getD ig 0
            xsnfA := acc.xsnfA + v * flux_i * mat.xsnf.getD ig 0
            xskfA := acc.xskfA + v * flux_i * mat.xskf.getD ig 0
            xschA := acc.xschA + fs acc.iregLocal * mat.xsch.getD ig 0
            scatA := fun igg =>
              if igg < ng ∧ srow.min_g ≤ igg ∧ igg ≤ srow.max_g then
                acc.scatA igg + srow.row.getD (igg - srow.min_g) 0 * v *
                  flux (acc.ireg + igg * n_reg)
              else acc.scatA igg
            scatsum := fun igg =>
              if igg < ng then
                acc.scatsum igg + flux (acc.ireg + igg * n_reg) * v
              else acc.scatsum igg
            ireg := acc.ireg + 1
            iregLocal := acc.iregLocal + 1 })
        acc)
    ⟨0, 0, 0, 0, 0, fun _ => 0, fun _ => 0, first_reg, 0⟩

/-- The homogenized per-pin cross sections returned by
`homogenize_region_flux` (as functions of the group index). -/
structure XSMeshRegionQ where
  xstr : Nat → ℚ
  xsnf : Nat → ℚ
  xskf : Nat → ℚ
  xsch : Nat → ℚ
  scat : Nat → Nat → ℚ

/-- `XSMeshHomogenized::homogenize_region_flux`
(src/mocc-core/xs_mesh_homogenized.cpp lines 116-212): precompute the
fission source `fs` and its sum; per destination group, accumulate with
`gLoop` and then normalize: `xstr`, `xsnf`, `xskf` by `fluxvolsum`;
each scattering entry by `scatsum[igg]` when positive; and `xsch` by
`fs_sum` **only when `fs_sum > 0`** (lines 204-206) — otherwise `xsch` is
left as accumulated.  (In ℚ, division by zero yields 0 where the C++
doubles would give NaN/inf for the unconditional `fluxvolsum` divisions;
the claims checked here do not touch that case.) -/
def homogenize_region_flux (mat_lib : Nat → Material) (pin : PinModel)
    (flux : Nat → ℚ) (n_reg first_reg ng : Nat) : XSMeshRegionQ :=
  let fs := fsLoop mat_lib pin flux n_reg first_reg ng
  let fs_sum := fsSum fs pin.n_reg_pin
  let acc := fun ig => gLoop mat_lib pin flux n_reg first_reg ng fs ig
  { xstr := fun ig => (acc ig).xstrA / (acc ig).fluxvolsum
    xsnf := fun ig => (acc ig).xsnfA / (acc ig).fluxvolsum
    xskf := fun ig => (acc ig).xskfA / (acc ig).fluxvolsum
    xsch := fun ig =>
      if fs_sum > 0 then (acc ig).xschA / fs_sum else (acc ig).xschA
    scat := fun ig igg =>
      if (acc ig).scatA igg > 0 then (acc ig).scatA igg / (acc ig).scatsum igg
      else (acc ig).scatA igg }

/-! ## Theorems -/

/-- C8: for every `Angle`, `upwind_surface(X_NORM)` returns WEST when
`ox > 0` and EAST otherwise; `upwind_surface(Y_NORM)` returns SOUTH when
`oy > 0` and NORTH otherwise; `upwind_surface(Z_NORM)` returns BOTTOM when
`oz > 0` and TOP otherwise. -/
theorem upwind_surface_spec (a : Angle) :
    (0 < a.ox → a.upwind_surface Normal.xNorm = Surface.west) ∧
    (¬ 0 < a.ox → a.upwind_surface Normal.xNorm = Surface.east) ∧
    (0 < a.oy → a.upwind_surface Normal.yNorm = Surface.south) ∧
    (¬ 0 < a.oy → a.upwind_surface Normal.yNorm = Surface.north) ∧
    (0 < a.oz → a.upwind_surface Normal.zNorm = Surface.bottom) ∧
    (¬ 0 < a.oz → a.upwind_surface Normal.zNorm = Surface.top) := by
  unfold Angle.upwind_surface
  refine ⟨?_, ?_, ?_, ?_, ?_, ?_⟩ <;> intro h <;> simp [h]

/-- Witness for `upwind_surface_spec` at a concrete angle with `ox > 0`. -/
theorem upwind_surface_spec_witness :
    (Angle.mk 1 (-1) 0 0 0 1 1).upwind_surface Normal.xNorm = Surface.west :=
  (upwind_surface_spec ⟨1, -1, 0, 0, 0, 1, 1⟩).1 (by norm_num)

/-- C3 counterexample: contrary to the claim that `type` selects among the
three kernels `moc`, `sn` and `2d3d`, the factory in
`mocc-core/transport_sweeper_factory.cpp` rejects `"2d3d"` with the
configuration error. -/
theorem transportSweeperFactory_rejects_2d3d :
    TransportSweeperFactory "2d3d" =
      Except.error "Failed to detect a valid sweeper type." := by
  rfl

/-- C3 (amended): the sweeper configuration option `type` selects among
exactly two transport kernels — `moc` and `sn` — each producing the
corresponding sweeper, and any other value (including `2d3d`) is rejected
as a configuration error. -/
theorem transportSweeperFactory_two_kernels (t : String) :
    TransportSweeperFactory "moc" = Except.ok SweeperKind.mocSweeper ∧
    TransportSweeperFactory "sn" = Except.ok SweeperKind.snSweeper ∧
    (t ≠ "moc" → t ≠ "sn" →
      TransportSweeperFactory t =
        Except.error "Failed to detect a valid sweeper type.") := by
  refine ⟨by rfl, by rfl, fun h1 h2 => ?_⟩
  simp [TransportSweeperFactory, h1, h2]

/-- Witness for `transportSweeperFactory_two_kernels` at `t = "foo"`. -/
theorem transportSweeperFactory_two_kernels_witness :
    TransportSweeperFactory "foo" =
      Except.error "Failed to detect a valid sweeper type." :=
  (transportSweeperFactory_two_kernels "foo").2.2 (by decide) (by decide)

/-- C2 (code bug): on a 1×2 core with input rows `[10]` then `[20]`, the
`Core` constructor stores the assembly grid exactly in input order
(`#[10, 20]`): the `ny_-iy-1` flip is applied to both the destination row
and the source row, so it cancels, and the stored grid is **not** the
y-flipped `#[20, 10]` described by the claim and by the code's own comment
("Make sure to flip the y-index to get it into lower-left origin"). -/
theorem coreFillAssemblies_identity_not_flipped :
    coreFillAssemblies 1 2 (fun i => [10, 20].getD i 0) = #[10, 20] ∧
    coreFillAssemblies 1 2 (fun i => [10, 20].getD i 0) ≠ #[20, 10] := by
  constructor <;> decide

/-- Helper: an inner iteration that is not the last produces the
self-scatter/no-current pair of events. -/
theorem innerTrace_of_ne (g n : Nat) (c : Bool) (inner : Nat)
    (h : inner ≠ n - 1) :
    innerTrace g n c inner =
      [SnEvent.selfScatter g, SnEvent.sweepNoCurrent g] := by
  simp [innerTrace, h]

/-- Helper: a flat-map of `innerTrace` over indices that all avoid the last
inner iteration is a replicated self-scatter/no-current pattern. -/
theorem flatMap_innerTrace_replicate (g n : Nat) (c : Bool) (l : List Nat)
    (hl : ∀ i ∈ l, i ≠ n - 1) :
    l.flatMap (innerTrace g n c) =
      (List.replicate l.length
        [SnEvent.selfScatter g, SnEvent.sweepNoCurrent g]).flatten := by
  induction l with
  | nil => rfl
  | cons a t ih =>
    rw [List.flatMap_cons, List.length_cons, List.replicate_succ,
      List.flatten_cons,
      innerTrace_of_ne g n c a (hl a (List.mem_cons_self a t)),
      ih (fun i hi => hl i (List.mem_cons_of_mem a hi))]

/-- C1: `sweep(group)` with `n_inner ≥ 1` performs exactly `n_inner` inner
one-group sweeps; every inner iteration except the last (and the last one
too, when no CoarseData is attached) sweeps with the no-op `NoCurrent`
worker, while the last inner iteration with CoarseData attached first
zeroes the coarse data for the group and then sweeps with the
current-capturing `Current` worker; and each inner iteration first
recomputes the self-scatter source from the current one-group flux
(`q = selfScatter g flux_1g`, the second conjunct). -/
theorem snSweep_inner_structure {BC D : Type} (ops : SnOps BC D)
    (g : Nat) (c : Bool) (n : Nat) (h : 1 ≤ n)
    (s : SnState BC D) (m inner : Nat) :
    sweepTrace g c n =
      (List.replicate (n - 1)
          [SnEvent.selfScatter g, SnEvent.sweepNoCurrent g]).flatten ++
        SnEvent.selfScatter g ::
          (if c = true then
            [SnEvent.zeroData g, SnEvent.sweepCurrent g,
             SnEvent.setHasAxialData, SnEvent.setHasRadialData]
          else [SnEvent.sweepNoCurrent g]) ∧
    (sweepInnerStep ops g m inner s).q = ops.selfScatter g s.flux1g := by
  constructor
  · obtain ⟨k, rfl⟩ : ∃ k, n = k + 1 :=
      ⟨n - 1, (Nat.succ_pred_eq_of_pos h).symm⟩
    rw [sweepTrace, List.range_succ, List.flatMap_append,
      flatMap_innerTrace_replicate g (k + 1) c (List.range k)
        (fun i hi => by
          have := List.mem_range.mp hi
          omega)]
    simp [innerTrace]
  · cases hco : s.coarse <;>
      by_cases hm : inner = m - 1 <;>
        simp [sweepInnerStep, hco, hm]

/-- Witness for `snSweep_inner_structure` at `g = 0`, coarse data attached,
`n_inner = 2`. -/
theorem snSweep_inner_structure_witness :
    sweepTrace 0 true 2 =
      [SnEvent.selfScatter 0, SnEvent.sweepNoCurrent 0,
       SnEvent.selfScatter 0, SnEvent.zeroData 0, SnEvent.sweepCurrent 0,
       SnEvent.setHasAxialData, SnEvent.setHasRadialData] := by
  have h := (@snSweep_inner_structure Nat Nat
    ⟨fun _ _ => 0, fun _ f => f, fun _ d => d,
     fun _ _ _ f bi bo d => (f, bi, bo, d),
     fun _ _ _ f bi bo => (f, bi, bo)⟩
    0 true 2 (by norm_num)
    ⟨fun _ _ => 0, fun _ => 0, fun _ => 0, fun _ => 0, 0, 0, none⟩ 0 0).1
  simpa using h

/-- C9: the Sn sweeper constructor accepts `n_inner = 0` and rejects
exactly a negative `n_inner`, a missing `n_inner` attribute, or an empty
input node; and `sweep(group)` with `n_inner = 0` performs zero inner
iterations (empty event trace) and leaves the flux, the boundary fluxes
and any attached coarse data unchanged. -/
theorem snSweep_zero_inner_frame {BC D : Type} (ops : SnOps BC D)
    (s : SnState BC D) (g r gg : Nat) (c : Bool) (v : Int)
    (attr : Option Int) :
    parseNInner ⟨false, some 0⟩ = Except.ok 0 ∧
    (parseNInner ⟨false, some v⟩ =
      if v < 0 then
        Except.error "Invalid number of inner iterations specified (n_inner)."
      else Except.ok v.toNat) ∧
    (parseNInner ⟨false, none⟩ =
      Except.error "Invalid number of inner iterations specified (n_inner).") ∧
    (parseNInner ⟨true, attr⟩ =
      Except.error "No input specified to initialize Sn sweeper.") ∧
    sweepTrace g c 0 = [] ∧
    (snSweep ops g 0 s).flux r gg = s.flux r gg ∧
    (snSweep ops g 0 s).bcIn = s.bcIn ∧
    (snSweep ops g 0 s).bcOut = s.bcOut ∧
    (snSweep ops g 0 s).coarse = s.coarse := by
  refine ⟨rfl, rfl, rfl, rfl, rfl, ?_, rfl, rfl, rfl⟩
  by_cases hg : gg = g <;> simp [snSweep, hg]

/-- Helper: an inner iteration other than the last leaves the coarse-data
attachment and flags untouched. -/
theorem sweepInnerStep_coarse_of_ne {BC D : Type} (ops : SnOps BC D)
    (g n inner : Nat) (h : inner ≠ n - 1) (s : SnState BC D) :
    (sweepInnerStep ops g n inner s).coarse = s.coarse := by
  simp [sweepInnerStep, h]

/-- Helper: folding inner iterations that all avoid the last index leaves
the coarse data untouched. -/
theorem foldl_sweepInnerStep_coarse {BC D : Type} (ops : SnOps BC D)
    (g n : Nat) (l : List Nat) (hl : ∀ i ∈ l, i ≠ n - 1)
    (s : SnState BC D) :
    (l.foldl (fun st inner => sweepInnerStep ops g n inner st) s).coarse =
      s.coarse := by
  induction l generalizing s with
  | nil => rfl
  | cons a t ih =>
    rw [List.foldl_cons, ih (fun i hi => hl i (List.mem_cons_of_mem a hi)),
      sweepInnerStep_coarse_of_ne ops g n a (hl a (List.mem_cons_self a t))]

/-- Helper: the last inner iteration with coarse data attached returns it
with both has-data flags set. -/
theorem sweepInnerStep_last_coarse {BC D : Type} (ops : SnOps BC D)
    (g k : Nat) (t : SnState BC D) (cd : CoarseData D)
    (h : t.coarse = some cd) :
    ((sweepInnerStep ops g (k + 1) k t).coarse.map
      fun c => (c.hasRadial, c.hasAxial)) = some (true, true) := by
  simp [sweepInnerStep, h]

/-- Helper: the coarse data returned by `snSweep` with `n_inner = k + 1` is
the coarse data after the last inner iteration. -/
theorem snSweep_coarse_eq {BC D : Type} (ops : SnOps BC D) (g k : Nat)
    (s : SnState BC D) :
    (snSweep ops g (k + 1) s).coarse =
      (sweepInnerStep ops g (k + 1) k
        ((List.range k).foldl
          (fun st inner => sweepInnerStep ops g (k + 1) inner st)
          { s with xstr := ops.xstrOf g,
                   flux1g := fun r => s.flux r g })).coarse := by
  simp only [snSweep, List.range_succ, List.foldl_append, List.foldl_cons,
    List.foldl_nil]

/-- C10: whenever `sweep(group)` runs with coarse data attached and
`n_inner ≥ 1`, on return the coarse data is still attached and its
`has_radial_data` and `has_axial_data` flags are both true, regardless of
the currents accumulated by the sweep. -/
theorem snSweep_sets_coarse_flags {BC D : Type} (ops : SnOps BC D)
    (g n : Nat) (s : SnState BC D) (cd : CoarseData D)
    (hc : s.coarse = some cd) (hn : 1 ≤ n) :
    ((snSweep ops g n s).coarse.map fun c => (c.hasRadial, c.hasAxial)) =
      some (true, true) := by
  obtain ⟨k, rfl⟩ : ∃ k, n = k + 1 :=
    ⟨n - 1, (Nat.succ_pred_eq_of_pos hn).symm⟩
  have hmid :
      ((List.range k).foldl
        (fun st inner => sweepInnerStep ops g (k + 1) inner st)
        { s with xstr := ops.xstrOf g,
                 flux1g := fun r => s.flux r g }).coarse = some cd := by
    rw [foldl_sweepInnerStep_coarse ops g (k + 1) (List.range k)
      (fun i hi => by
        have := List.mem_range.mp hi
        omega)]
    exact hc
  rw [snSweep_coarse_eq]
  exact sweepInnerStep_last_coarse ops g k _ cd hmid

/-- Witness for `snSweep_sets_coarse_flags` with one inner iteration and a
concrete attached coarse-data bus whose flags start false. -/
theorem snSweep_sets_coarse_flags_witness :
    ((@snSweep Nat Nat
        ⟨fun _ _ => 0, fun _ f => f, fun _ d => d,
         fun _ _ _ f bi bo d => (f, bi, bo, d),
         fun _ _ _ f bi bo => (f, bi, bo)⟩
        0 1
        ⟨fun _ _ => 0, fun _ => 0, fun _ => 0, fun _ => 0, 0, 0,
         some ⟨5, false, false⟩⟩).coarse.map
      fun c => (c.hasRadial, c.hasAxial)) = some (true, true) :=
  snSweep_sets_coarse_flags _ 0 1 _ ⟨5, false, false⟩ rfl (by norm_num)

/-- Helper: the C-style loop with step `+1` visits `i, i+1, …` for the
given number of iterations. -/
theorem forIdx_pos (f : Nat) :
    ∀ i : Int, forIdx f i 1 = (List.range f).map (fun (k : Nat) => i + (k : Int)) := by
  induction f with
  | zero => intro i; rfl
  | succ m ih =>
    intro i
    rw [forIdx, ih (i + 1), List.range_succ_eq_map, List.map_cons,
      List.map_map]
    congr 1
    · simp
    · refine List.map_congr_left fun a _ => ?_
      simp only [Function.comp_apply]
      push_cast
      ring

/-- Helper: the C-style loop with step `-1` starting at `n-1` visits
`n-1, n-2, …, 0`. -/
theorem forIdx_neg (n : Nat) :
    forIdx n ((n : Int) - 1) (-1) =
      ((List.range n).map (fun (k : Nat) => (k : Int))).reverse := by
  induction n with
  | zero => rfl
  | succ m ih =>
    have h1 : ((m + 1 : Nat) : Int) - 1 = (m : Int) := by push_cast; ring
    have h2 : (m : Int) + (-1) = (m : Int) - 1 := by ring
    rw [forIdx, h1, h2, ih, List.range_succ, List.map_append,
      List.reverse_append]
    simp

/-- C4: in each per-angle pass of the Sn one-group sweep, the cell loop
over an axis of extent `n` runs forward (`0` up to `n-1`) when the
direction cosine is positive, and in reverse (start `n-1`, stop sentinel
`-1`, step `-1`) when it is negative; and the value left in the local
cosine variable after the configuration block — the one available to the
cell equation — is the absolute value of the cosine. -/
theorem sweep1g_axis_direction (n : Nat) (o : ℚ) :
    (0 < o →
      axisIndices n o = (List.range n).map (fun (i : Nat) => (i : Int)) ∧
      axisConfig n o = ⟨0, (n : Int), 1, o⟩) ∧
    (o < 0 →
      axisIndices n o = ((List.range n).map (fun (i : Nat) => (i : Int))).reverse ∧
      axisConfig n o = ⟨(n : Int) - 1, -1, -1, -o⟩) ∧
    (axisConfig n o).oabs = |o| := by
  refine ⟨fun h => ⟨?_, ?_⟩, fun h => ⟨?_, ?_⟩, ?_⟩
  · have hno : ¬ o < 0 := by linarith
    simp only [axisIndices, axisConfig, if_neg hno]
    have hfuel : (((n : Int) - 0) * 1).toNat = n := by simp
    rw [hfuel, forIdx_pos]
    simp
  · simp [axisConfig, not_lt.mpr (le_of_lt h)]
  · simp only [axisIndices, axisConfig, if_pos h]
    have hstep : (-1 - ((n : Int) - 1)) * (-1) = (n : Int) := by ring
    rw [hstep]
    have hfuel : ((n : Int)).toNat = n := by simp
    rw [hfuel, forIdx_neg]
  · simp [axisConfig, h]
  · by_cases ho : o < 0
    · simp [axisConfig, ho, abs_of_neg ho]
    · simp [axisConfig, ho, abs_of_nonneg (not_lt.mp ho)]

/-- Witness for `sweep1g_axis_direction` at `n = 3` with cosines `1` and
`-1`. -/
theorem sweep1g_axis_direction_witness :
    axisIndices 3 (1 : ℚ) = [0, 1, 2] ∧
    axisIndices 3 (-1 : ℚ) = [2, 1, 0] ∧
    (axisConfig 3 (-1 : ℚ)).oabs = 1 := by
  refine ⟨?_, ?_, ?_⟩
  · rw [((sweep1g_axis_direction 3 1).1 (by norm_num)).1]
    decide
  · rw [((sweep1g_axis_direction 3 (-1)).2.1 (by norm_num)).1]
    decide
  · rw [(sweep1g_axis_direction 3 (-1)).2.2]
    norm_num

/-- Helper: with `gs_boundary` false, one angle's pass leaves `bc_in_`
untouched. -/
theorem angleStep_false_bcIn {BC Face : Type} (ops : BCOps BC Face)
    (angleComp : Nat → Face × Face × Face → Face × Face × Face)
    (g a : Nat) (st : BCPair BC) :
    (angleStep ops angleComp false g a st).bcIn = st.bcIn := by
  simp [angleStep]

/-- Helper: with `gs_boundary` false, the whole angle loop leaves `bc_in_`
untouched. -/
theorem foldl_angleStep_false_bcIn {BC Face : Type} (ops : BCOps BC Face)
    (angleComp : Nat → Face × Face × Face → Face × Face × Face)
    (g : Nat) (angles : List Nat) (st : BCPair BC) :
    (angles.foldl (fun s a => angleStep ops angleComp false g a s) st).bcIn =
      st.bcIn := by
  induction angles generalizing st with
  | nil => rfl
  | cons a t ih => rw [List.foldl_cons, ih, angleStep_false_bcIn]

/-- C5: boundary-update modes of the Sn one-group sweep.
With `gs_boundary` false (Jacobi in angle): every intermediate state of the
angle loop — in particular the `bc_in_` each angle reads — still carries
the `bc_in_` present at sweep entry (first conjunct), and on return
`bc_in_` has been updated exactly once, from the entry `bc_in_` and the
outgoing faces accumulated over all angles (second conjunct).
With `gs_boundary` true (Gauss-Seidel in angle): immediately after each
angle's pass, `bc_in_` is the entry `bc_in_` of that pass updated with the
angle's outgoing faces — which is the state handed to the next angle
(third conjunct) — and no further update happens after the loop (fourth
conjunct). -/
theorem sweep1g_boundary_modes {BC Face : Type} (ops : BCOps BC Face)
    (angleComp : Nat → Face × Face × Face → Face × Face × Face)
    (g : Nat) (angles : List Nat) (st : BCPair BC) :
    (∀ s ∈ bcStates ops angleComp false g angles st, s.bcIn = st.bcIn) ∧
    ((sweep1gBoundary ops angleComp false g angles st).bcIn =
      ops.updateAll st.bcIn g
        (sweep1gBoundary ops angleComp false g angles st).bcOut) ∧
    (∀ (a : Nat) (t : BCPair BC),
      (angleStep ops angleComp true g a t).bcIn =
        ops.updateAng t.bcIn g a (angleStep ops angleComp true g a t).bcOut) ∧
    (sweep1gBoundary ops angleComp true g angles st =
      angles.foldl (fun s a => angleStep ops angleComp true g a s) st) := by
  refine ⟨?_, ?_, ?_, ?_⟩
  · induction angles generalizing st with
    | nil =>
      intro s hs
      simp only [bcStates, List.mem_singleton] at hs
      rw [hs]
    | cons a t ih =>
      intro s hs
      rw [bcStates] at hs
      rcases List.mem_cons.mp hs with h | h
      · rw [h]
      · rw [ih (angleStep ops angleComp false g a st) s h,
          angleStep_false_bcIn]
  · simp only [sweep1gBoundary, Bool.false_eq_true, if_false]
    rw [foldl_angleStep_false_bcIn]
  · intro a t
    simp [angleStep]
  · simp [sweep1gBoundary]

/-- Witness for `sweep1g_boundary_modes`: a concrete two-angle sweep over
natural-number boundary states; the state after the first angle still
carries the entry `bc_in_` in Jacobi mode. -/
theorem sweep1g_boundary_modes_witness :
    (⟨1, 17⟩ : BCPair Nat).bcIn = (⟨1, 2⟩ : BCPair Nat).bcIn := by
  have h := (@sweep1g_boundary_modes Nat Nat
      ⟨fun b _ a _ => b + a, fun b _ _ _ f => b + f,
       fun bin _ _ bout => bin + bout, fun bin _ bout => bin + bout⟩
      (fun _ t => t) 0 [4, 5] ⟨1, 2⟩).1 ⟨1, 17⟩ (by decide)
  exact h

/-- Helper: the `nz` loop condition of the core compatibility check holds
iff every assembly shares the first assembly's `nz`. -/
theorem coreCheck_all_nz_iff (first : AssemblyQ) (rest : List AssemblyQ) :
    ((first :: rest).all (fun a => a.nz = first.nz) = true) ↔
      ∀ a ∈ first :: rest, a.nz = first.nz := by
  simp

/-- Helper: given the `Assembly` invariant `hz.length = nz` and equal plane
counts, the per-plane height check of the core compatibility check holds
iff every assembly's `hz` vector equals the first assembly's. -/
theorem coreCheck_all_hz_iff (first : AssemblyQ) (rest : List AssemblyQ)
    (hlen : ∀ a ∈ first :: rest, a.hz.length = a.nz)
    (hnz : ∀ a ∈ first :: rest, a.nz = first.nz) :
    ((List.range first.nz).all
      (fun i => (first :: rest).all
        (fun a => a.hz.getD i 0 = first.hz.getD i 0)) = true) ↔
      ∀ a ∈ first :: rest, a.hz = first.hz := by
  simp only [List.all_eq_true, List.mem_range, decide_eq_true_eq]
  constructor
  · intro h a ha
    have hla : a.hz.length = first.nz := by rw [hlen a ha, hnz a ha]
    have hlf : first.hz.length = first.nz :=
      hlen first (List.mem_cons_self first rest)
    apply List.ext_getElem (by rw [hla, hlf])
    intro i h1 h2
    have hi : i < first.nz := by rw [← hla]; exact h1
    have hgd := h i hi a ha
    rw [List.getD_eq_getElem a.hz 0 h1, List.getD_eq_getElem first.hz 0 h2]
      at hgd
    exact hgd
  · intro h i hi a ha
    rw [h a ha]

/-- C7: constructing a `Core` succeeds exactly when every assembly has the
same number of planes `nz` and an identical per-plane height vector `hz`
as the first one; if any assembly differs in `nz`, construction fails with
the geometry error naming the incompatible-plane-count rule, and if the
plane counts agree but some `hz` entry differs, it fails with the
incompatible-plane-heights error — in both cases no `Core` is produced.
(`hlen` is the `Assembly` invariant that `hz_` holds one height per
plane.) -/
theorem coreConstruct_compatibility (first : AssemblyQ)
    (rest : List AssemblyQ)
    (hlen : ∀ a ∈ first :: rest, a.hz.length = a.nz) :
    (coreConstruct (first :: rest) = Except.ok (first :: rest) ↔
      ∀ a ∈ first :: rest, a.nz = first.nz ∧ a.hz = first.hz) ∧
    ((∃ a ∈ first :: rest, a.nz ≠ first.nz) →
      coreConstruct (first :: rest) =
        Except.error
          "Assemblies in the core have incompatible numbers of planes.") ∧
    ((∀ a ∈ first :: rest, a.nz = first.nz) →
      (∃ a ∈ first :: rest, a.hz ≠ first.hz) →
      coreConstruct (first :: rest) =
        Except.error
          "Assemblies have incompatible plane heights in core.") := by
  refine ⟨⟨?_, ?_⟩, ?_, ?_⟩
  · intro hok
    by_cases hb1 : (first :: rest).all (fun a => a.nz = first.nz) = true
    · have hnz := (coreCheck_all_nz_iff first rest).mp hb1
      by_cases hb2 : (List.range first.nz).all
          (fun i => (first :: rest).all
            (fun a => a.hz.getD i 0 = first.hz.getD i 0)) = true
      · have hhz := (coreCheck_all_hz_iff first rest hlen hnz).mp hb2
        exact fun a ha => ⟨hnz a ha, hhz a ha⟩
      · exfalso
        simp only [coreConstruct, coreCheckCompatible, List.headD_cons]
          at hok
        rw [if_pos hb1, if_neg hb2] at hok
        simp at hok
    · exfalso
      simp only [coreConstruct, coreCheckCompatible, List.headD_cons] at hok
      rw [if_neg hb1] at hok
      simp at hok
  · intro hc
    have hnz : ∀ a ∈ first :: rest, a.nz = first.nz :=
      fun a ha => (hc a ha).1
    have hb1 := (coreCheck_all_nz_iff first rest).mpr hnz
    have hb2 := (coreCheck_all_hz_iff first rest hlen hnz).mpr
      (fun a ha => (hc a ha).2)
    simp only [coreConstruct, coreCheckCompatible, List.headD_cons]
    rw [if_pos hb1, if_pos hb2]
  · rintro ⟨a, ha, hne⟩
    have hb1 : ¬ ((first :: rest).all (fun a => a.nz = first.nz) = true) :=
      fun hb => hne ((coreCheck_all_nz_iff first rest).mp hb a ha)
    simp only [coreConstruct, coreCheckCompatible, List.headD_cons]
    rw [if_neg hb1]
  · intro hnz
    rintro ⟨a, ha, hne⟩
    have hb1 := (coreCheck_all_nz_iff first rest).mpr hnz
    have hb2 : ¬ ((List.range first.nz).all
        (fun i => (first :: rest).all
          (fun a => a.hz.getD i 0 = first.hz.getD i 0)) = true) :=
      fun hb =>
        hne ((coreCheck_all_hz_iff first rest hlen hnz).mp hb a ha)
    simp only [coreConstruct, coreCheckCompatible, List.headD_cons]
    rw [if_pos hb1, if_neg hb2]

/-- Witness for `coreConstruct_compatibility`: two assemblies with plane
counts 1 and 2 are rejected with the incompatible-plane-count error. -/
theorem coreConstruct_compatibility_witness :
    coreConstruct [⟨1, [1]⟩, ⟨2, [1, 2]⟩] =
      Except.error
        "Assemblies in the core have incompatible numbers of planes." :=
  (coreConstruct_compatibility ⟨1, [1]⟩ [⟨2, [1, 2]⟩] (by decide)).2.1
    ⟨⟨2, [1, 2]⟩, by decide, by decide⟩

/-- Helper: `getD` with default 0 of a list of nonnegative rationals is
nonnegative. -/
theorem getD_nonneg (l : List ℚ) (h : ∀ x ∈ l, 0 ≤ x) (j : Nat) :
    0 ≤ l.getD j 0 := by
  by_cases hj : j < l.length
  · rw [List.getD_eq_getElem l 0 hj]
    exact h _ (List.getElem_mem hj)
  · rw [List.getD_eq_default l 0 (le_of_not_lt hj)]

/-- Helper: the fission-source precompute of `homogenize_region_flux` keeps
every entry nonnegative (for nonnegative flux, volumes and nu-fission
cross sections) and never writes outside the pin's region range. -/
theorem fsLoop_inv (mat_lib : Nat → Material) (pin : PinModel)
    (flux : Nat → ℚ) (n_reg first_reg ng : Nat)
    (hflux : ∀ i, 0 ≤ flux i)
    (hvols : ∀ x ∈ pin.vols, 0 ≤ x)
    (hxsnf : ∀ m ∈ pin.mat_ids, ∀ x ∈ (mat_lib m).xsnf, 0 ≤ x)
    (hfsrs : ∀ k < pin.mat_ids.length, pin.n_fsrs k ≤ pin.n_reg_pin) :
    (∀ j, 0 ≤ fsLoop mat_lib pin flux n_reg first_reg ng j) ∧
    (∀ j, pin.n_reg_pin ≤ j →
      fsLoop mat_lib pin flux n_reg first_reg ng j = 0) := by
  rw [fsLoop]
  refine List.foldlRecOn
    (motive := fun fs => (∀ j, 0 ≤ fs j) ∧
      (∀ j, pin.n_reg_pin ≤ j → fs j = 0))
    pin.mat_ids.enum _ (fun _ => (0 : ℚ))
    ⟨fun j => le_refl 0, fun j _ => rfl⟩ ?_
  intro fs hfs p hp
  have hp2 : p.2 ∈ pin.mat_ids := by
    rw [List.mem_enum_iff_getElem?] at hp
    exact List.getElem?_mem hp
  have hp1 : p.1 < pin.mat_ids.length := by
    rw [List.mem_enum_iff_getElem?] at hp
    exact (List.getElem?_eq_some.mp hp).1
  refine List.foldlRecOn
    (motive := fun fs => (∀ j, 0 ≤ fs j) ∧
      (∀ j, pin.n_reg_pin ≤ j → fs j = 0))
    (List.range ng) _ fs hfs ?_
  intro fs hfs ig _
  refine List.foldlRecOn
    (motive := fun fs => (∀ j, 0 ≤ fs j) ∧
      (∀ j, pin.n_reg_pin ≤ j → fs j = 0))
    (List.range (pin.n_fsrs p.1)) _ fs hfs ?_
  intro fs hfs i hi
  have hilt : i < pin.n_fsrs p.1 := List.mem_range.mp hi
  constructor
  · intro j
    by_cases hji : j = i
    · simp only [hji, if_pos rfl]
      refine add_nonneg (hfs.1 i) ?_
      refine mul_nonneg (mul_nonneg ?_ (hflux _)) (getD_nonneg _ hvols i)
      exact getD_nonneg _ (hxsnf p.2 hp2) ig
    · simp only [if_neg hji]
      exact hfs.1 j
  · intro j hj
    have hji : j ≠ i := by
      have := hfsrs p.1 hp1
      omega
    simp only [if_neg hji]
    exact hfs.2 j hj

/-- Helper: a sum of nonnegative values over `List.range n` can only vanish
if every summand vanishes. -/
theorem sum_range_map_eq_zero (f : Nat → ℚ) (n : Nat)
    (hf : ∀ j, 0 ≤ f j) (hs : ((List.range n).map f).sum = 0) :
    ∀ j < n, f j = 0 := by
  induction n with
  | zero => intro j hj; exact absurd hj (Nat.not_lt_zero j)
  | succ m ih =>
    rw [List.range_succ, List.map_append, List.sum_append] at hs
    simp only [List.map_cons, List.map_nil, List.sum_cons, List.sum_nil,
      add_zero] at hs
    have h1 : 0 ≤ ((List.range m).map f).sum :=
      List.sum_nonneg (by
        intro x hx
        obtain ⟨j, _, rfl⟩ := List.mem_map.mp hx
        exact hf j)
    have h2 : 0 ≤ f m := hf m
    have hsm : ((List.range m).map f).sum = 0 := by linarith
    have hfm : f m = 0 := by linarith
    intro j hj
    rcases Nat.lt_succ_iff_lt_or_eq.mp hj with h | h
    · exact ih hsm j h
    · rw [h, hfm]

/-- Helper: when the precomputed fission source vanishes identically, the
per-group loop of `homogenize_region_flux` accumulates a zero `xsch`. -/
theorem gLoop_xschA_zero (mat_lib : Nat → Material) (pin : PinModel)
    (flux : Nat → ℚ) (n_reg first_reg ng : Nat) (fs : Nat → ℚ) (ig : Nat)
    (hfs : ∀ j, fs j = 0) :
    (gLoop mat_lib pin flux n_reg first_reg ng fs ig).xschA = 0 := by
  rw [gLoop]
  refine List.foldlRecOn (motive := fun (a : GAccum) => a.xschA = 0)
    pin.mat_ids.enum _ _ rfl ?_
  intro acc hacc p _
  refine List.foldlRecOn (motive := fun (a : GAccum) => a.xschA = 0)
    (List.range (pin.n_fsrs p.1)) _ acc hacc ?_
  intro acc hacc i _
  simp only [hacc, hfs, zero_mul, add_zero]

/-- C6: for every pin and group, the flux-weighted homogenization leaves
the homogenized chi at zero whenever the pin's total fission source
(`fs_sum`, the code's sum over regions of the per-group accumulated
`xsnf·flux·volume`) is zero — e.g. for identically zero flux or an
unfissile pin — never dividing by the zero fission-source sum.  The
nonnegativity hypotheses are the physical ones: nonnegative flux, volumes
and nu-fission cross sections; `hfsrs` is the mesh invariant that each
XS region's fine-region count fits in the pin. -/
theorem homogenize_region_flux_chi_zero (mat_lib : Nat → Material)
    (pin : PinModel) (flux : Nat → ℚ) (n_reg first_reg ng : Nat)
    (hflux : ∀ i, 0 ≤ flux i)
    (hvols : ∀ x ∈ pin.vols, 0 ≤ x)
    (hxsnf : ∀ m ∈ pin.mat_ids, ∀ x ∈ (mat_lib m).xsnf, 0 ≤ x)
    (hfsrs : ∀ k < pin.mat_ids.length, pin.n_fsrs k ≤ pin.n_reg_pin)
    (hsum : fsSum (fsLoop mat_lib pin flux n_reg first_reg ng)
      pin.n_reg_pin = 0) (ig : Nat) :
    (homogenize_region_flux mat_lib pin flux n_reg first_reg ng).xsch ig
      = 0 := by
  obtain ⟨hpos, hhigh⟩ :=
    fsLoop_inv mat_lib pin flux n_reg first_reg ng hflux hvols hxsnf hfsrs
  have hsum' : ((List.range pin.n_reg_pin).map
      (fsLoop mat_lib pin flux n_reg first_reg ng)).sum = 0 := hsum
  have hall : ∀ j, fsLoop mat_lib pin flux n_reg first_reg ng j = 0 := by
    intro j
    by_cases hj : j < pin.n_reg_pin
    · exact sum_range_map_eq_zero _ _ hpos hsum' j hj
    · exact hhigh j (le_of_not_lt hj)
  have hx := gLoop_xschA_zero mat_lib pin flux n_reg first_reg ng
    (fsLoop mat_lib pin flux n_reg first_reg ng) ig hall
  simp only [homogenize_region_flux]
  rw [hsum]
  simp [hx]

/-- Witness for `homogenize_region_flux_chi_zero`: a one-region,
one-group pin with unit cross sections and identically zero flux. -/
theorem homogenize_region_flux_chi_zero_witness :
    (homogenize_region_flux (fun _ => ⟨[1], [1], [1], [1], fun _ => ⟨0, 0, [0]⟩⟩)
      ⟨[0], fun _ => 1, [1], 1⟩ (fun _ => 0) 1 0 1).xsch 0 = 0 := by
  refine homogenize_region_flux_chi_zero _ _ _ 1 0 1
    (fun i => le_refl 0) ?_ ?_ ?_ ?_ 0
  · intro x hx
    simp only [List.mem_singleton] at hx
    rw [hx]
    norm_num
  · intro m _ x hx
    simp only [List.mem_singleton] at hx
    rw [hx]
    norm_num
  · intro k hk
    exact le_refl 1
  · simp [fsSum, fsLoop, List.enum, List.enumFrom]

end Mocc
